import Mathlib

/-!
Verification of the RoPE (rotary position embedding) Triton kernel and its
frequency-table builders, shallowly embedded from `src/kernels/rope.py`.

Memory is modelled as a total function `Nat → ℝ` (a flat buffer of floats,
idealised to real numbers).  The Triton kernel `rope_kernel_fw` is embedded
as the list of (address, value) stores it performs over its whole dispatch
grid, folded over an explicit kernel state; masked loads return 0.0 and
masked lanes produce no store, exactly as in the source.
-/

namespace Rope

/-- A single store into a flat buffer: later stores win. -/
def store (m : Nat → ℝ) (w : Nat × ℝ) : Nat → ℝ :=
  fun a => if a = w.1 then w.2 else m a

/-- The scalar arguments of `rope_kernel_fw` (pointers excluded: the four
buffers are carried separately in `KernelState`). -/
structure KernelArgs where
  in_seq_len_stride : Nat
  in_batch_stride : Nat
  cos_stride : Nat
  sin_stride : Nat
  seq_len : Nat
  head_dim : Nat
  BLOCK_SIZE : Nat
  BATCH_NUM : Nat

/-- `head_dim_mid = head_dim // 2` from the kernel body. -/
def head_dim_mid (A : KernelArgs) : Nat := A.head_dim / 2

/-- `cos_offset = (pid_seq % seq_len) * cos_stride + head_dim_offset`. -/
def cos_offset (A : KernelArgs) (pid_seq lane : Nat) : Nat :=
  (pid_seq % A.seq_len) * A.cos_stride + lane

/-- `sin_offset = (pid_seq % seq_len) * sin_stride + head_dim_offset`. -/
def sin_offset (A : KernelArgs) (pid_seq lane : Nat) : Nat :=
  (pid_seq % A.seq_len) * A.sin_stride + lane

/-- `x1_offset = pid_seq * in_seq_len_stride + batch_idx * in_batch_stride
  + pid_head * head_dim + head_dim_offset`. -/
def x1_offset (A : KernelArgs) (pid_seq batch_idx pid_head lane : Nat) : Nat :=
  pid_seq * A.in_seq_len_stride + batch_idx * A.in_batch_stride +
    pid_head * A.head_dim + lane

/-- `x2_offset = pid_seq * in_seq_len_stride + batch_idx * in_batch_stride
  + pid_head * head_dim + head_dim_mid + head_dim_offset`. -/
def x2_offset (A : KernelArgs) (pid_seq batch_idx pid_head lane : Nat) : Nat :=
  pid_seq * A.in_seq_len_stride + batch_idx * A.in_batch_stride +
    pid_head * A.head_dim + head_dim_mid A + lane

/-- `tl.load(ptr + off, mask=mask, other=0.0)`: a masked load returns the
neutral value 0.0 on a masked-out lane and does not touch memory. -/
def maskedLoad (mem : Nat → ℝ) (off : Nat) (mask : Bool) : ℝ :=
  if mask then mem off else 0.0

/-- The lane mask `head_dim_offset < head_dim_mid`. -/
def laneMask (A : KernelArgs) (lane : Nat) : Bool :=
  decide (lane < head_dim_mid A)

/-- The value `cos` loaded for one lane. -/
def cosval (A : KernelArgs) (cosMem : Nat → ℝ) (s lane : Nat) : ℝ :=
  maskedLoad cosMem (cos_offset A s lane) (laneMask A lane)

/-- The value `sin` loaded for one lane. -/
def sinval (A : KernelArgs) (sinMem : Nat → ℝ) (s lane : Nat) : ℝ :=
  maskedLoad sinMem (sin_offset A s lane) (laneMask A lane)

/-- The value `x1` loaded for one lane. -/
def x1val (A : KernelArgs) (input : Nat → ℝ) (s b h lane : Nat) : ℝ :=
  maskedLoad input (x1_offset A s b h lane) (laneMask A lane)

/-- The value `x2` loaded for one lane. -/
def x2val (A : KernelArgs) (input : Nat → ℝ) (s b h lane : Nat) : ℝ :=
  maskedLoad input (x2_offset A s b h lane) (laneMask A lane)

/-- `y1 = x1 * cos - x2 * sin`. -/
def y1val (A : KernelArgs) (input cosMem sinMem : Nat → ℝ) (s b h lane : Nat) : ℝ :=
  x1val A input s b h lane * cosval A cosMem s lane -
    x2val A input s b h lane * sinval A sinMem s lane

/-- `y2 = x1 * sin + x2 * cos`. -/
def y2val (A : KernelArgs) (input cosMem sinMem : Nat → ℝ) (s b h lane : Nat) : ℝ :=
  x1val A input s b h lane * sinval A sinMem s lane +
    x2val A input s b h lane * cosval A cosMem s lane

/-- The stores performed by one `batch_idx` iteration of the kernel body at
grid point `(s, h)`: the masked store of the vector `y1` at `x1_offset`
followed by the masked store of `y2` at `x2_offset`; masked-out lanes are
skipped. -/
def batchWrites (A : KernelArgs) (input cosMem sinMem : Nat → ℝ)
    (s h b : Nat) : List (Nat × ℝ) :=
  ((List.range A.BLOCK_SIZE).filterMap fun lane =>
    if laneMask A lane then
      some (x1_offset A s b h lane, y1val A input cosMem sinMem s b h lane)
    else none) ++
  ((List.range A.BLOCK_SIZE).filterMap fun lane =>
    if laneMask A lane then
      some (x2_offset A s b h lane, y2val A input cosMem sinMem s b h lane)
    else none)

/-- All stores of one grid unit `(pid_seq, pid_head)`: the
`tl.static_range(0, BATCH_NUM)` loop. -/
def unitWrites (A : KernelArgs) (input cosMem sinMem : Nat → ℝ)
    (s h : Nat) : List (Nat × ℝ) :=
  (List.range A.BATCH_NUM).flatMap (batchWrites A input cosMem sinMem s h)

/-- All stores of the whole dispatch grid `(grid_seq, head_num)`. -/
def kernelWrites (A : KernelArgs) (grid_seq head_num : Nat)
    (input cosMem sinMem : Nat → ℝ) : List (Nat × ℝ) :=
  (List.range grid_seq).flatMap fun s =>
    (List.range head_num).flatMap fun h =>
      unitWrites A input cosMem sinMem s h

/-- The four buffers the kernel sees: the activation input, the cos and sin
tables, and the output buffer. -/
structure KernelState where
  inputMem : Nat → ℝ
  cosMem : Nat → ℝ
  sinMem : Nat → ℝ
  outMem : Nat → ℝ

/-- A `tl.store(output_ptr + off, v)`: only the output buffer changes. -/
def storeOut (st : KernelState) (w : Nat × ℝ) : KernelState :=
  { st with outMem := store st.outMem w }

/-- The whole kernel dispatch: every store of the grid, applied to the
output buffer. -/
def rope_kernel_fw (A : KernelArgs) (grid_seq head_num : Nat)
    (st : KernelState) : KernelState :=
  (kernelWrites A grid_seq head_num st.inputMem st.cosMem st.sinMem).foldl storeOut st

/-- The output offset of the store of half `half` (0 for `y1`, 1 for `y2`)
on lane `lane` of work unit `(s, h)`, batch `b`. -/
def write_offset (A : KernelArgs) (s b h half lane : Nat) : Nat :=
  s * A.in_seq_len_stride + b * A.in_batch_stride + h * A.head_dim +
    (half * head_dim_mid A + lane)

/-- The smallest power of two greater than or equal to `n`
(`triton.next_power_of_2`; its bit-twiddling implementation maps 0 to 0). -/
def next_power_of_2 (n : Nat) : Nat :=
  if n = 0 then 0 else 2 ^ Nat.clog 2 n

/-- The addresses the kernel dereferences in the cos table over the whole
grid: one masked row load per grid unit `(s, h)`. -/
def cosReadAddrs (A : KernelArgs) (grid_seq head_num : Nat) : List Nat :=
  (List.range grid_seq).flatMap fun s =>
    (List.range head_num).flatMap fun _ =>
      (List.range A.BLOCK_SIZE).filterMap fun lane =>
        if laneMask A lane then some (cos_offset A s lane) else none

/-- The addresses the kernel dereferences in the sin table over the whole
grid. -/
def sinReadAddrs (A : KernelArgs) (grid_seq head_num : Nat) : List Nat :=
  (List.range grid_seq).flatMap fun s =>
    (List.range head_num).flatMap fun _ =>
      (List.range A.BLOCK_SIZE).filterMap fun lane =>
        if laneMask A lane then some (sin_offset A s lane) else none

/-- The addresses the kernel dereferences in the activation input over the
whole grid: the masked `x1` and `x2` loads of every batch iteration. -/
def inputReadAddrs (A : KernelArgs) (grid_seq head_num : Nat) : List Nat :=
  (List.range grid_seq).flatMap fun s =>
    (List.range head_num).flatMap fun h =>
      (List.range A.BATCH_NUM).flatMap fun b =>
        ((List.range A.BLOCK_SIZE).filterMap fun lane =>
          if laneMask A lane then some (x1_offset A s b h lane) else none) ++
        ((List.range A.BLOCK_SIZE).filterMap fun lane =>
          if laneMask A lane then some (x2_offset A s b h lane) else none)

/-! Host-side data model: tensors, the freqs table, the ctx object, and
the `rope` entry point. -/

/-- A 4-axis tensor as the host code sees it: the four logical axis sizes,
the strides of axes 0 and 1 (the kernel receives only `t.stride(0)` and
`t.stride(1)` and addresses axes 2 and 3 contiguously), and the underlying
flat buffer. -/
structure PtTensor where
  d0 : Nat
  d1 : Nat
  heads : Nat
  dim : Nat
  s0 : Nat
  s1 : Nat
  mem : Nat → ℝ

/-- `t.transpose(0, 1)`: swaps the sizes and strides of axes 0 and 1; the
buffer is shared, no copy. -/
def transpose01 (t : PtTensor) : PtTensor :=
  { d0 := t.d1, d1 := t.d0, heads := t.heads, dim := t.dim,
    s0 := t.s1, s1 := t.s0, mem := t.mem }

/-- A frequency (angle) table with `rows` positions and `cols` pair
indices per position. -/
structure Freqs where
  rows : Nat
  cols : Nat
  val : Nat → Nat → ℝ

/-- The context object of the autograd convention: `rope` writes the
attributes `cos`, `sin`, `BLOCK_SIZE` and `tensor_format` onto it.
`none` models an attribute not present before the call. -/
structure Ctx where
  cos : Option (Nat → ℝ)
  sin : Option (Nat → ℝ)
  BLOCK_SIZE : Option Nat
  tensor_format : Option String

/-- What a `rope` call produces: the returned output tensor plus the
caller-visible state of the `ctx` object after the call. -/
structure RopeResult where
  output : PtTensor
  ctx : Ctx

/-- The host entry point `rope(ctx, t, freqs, tensor_format)`.

`cosf` and `sinf` stand for the pointwise `torch.cos` / `torch.sin`
applied to the sliced freqs table, and `uninit` models the unspecified
initial contents of the `torch.empty_like` output allocation.  The unused
`cu_seqlens` parameter of the source is omitted.  Slicing `freqs[:seq_len]`
caps the row count and keeps the values; the cos/sin tables are fresh
contiguous tensors, so their row stride is the column count of `freqs`. -/
def rope (ctx : Ctx) (t0 : PtTensor) (freqs : Freqs) (tensor_format : String)
    (cosf sinf : ℝ → ℝ) (uninit : Nat → ℝ) : Except String RopeResult :=
  if tensor_format = "bshd" ∨ tensor_format = "sbhd" then
    let t := if tensor_format = "bshd" then transpose01 t0 else t0
    let seq_len := t.d0
    let batch_num := t.d1
    let head_num := t.heads
    let head_dim := t.dim
    let BLOCK_SIZE := next_power_of_2 (head_dim / 2)
    let freqsSliced : Freqs :=
      { rows := min freqs.rows seq_len, cols := freqs.cols, val := freqs.val }
    let cosMem : Nat → ℝ := fun a =>
      cosf (freqsSliced.val (a / freqsSliced.cols) (a % freqsSliced.cols))
    let sinMem : Nat → ℝ := fun a =>
      sinf (freqsSliced.val (a / freqsSliced.cols) (a % freqsSliced.cols))
    let A : KernelArgs :=
      { in_seq_len_stride := t.s0, in_batch_stride := t.s1,
        cos_stride := freqsSliced.cols, sin_stride := freqsSliced.cols,
        seq_len := seq_len, head_dim := head_dim,
        BLOCK_SIZE := BLOCK_SIZE, BATCH_NUM := batch_num }
    let st : KernelState :=
      { inputMem := t.mem, cosMem := cosMem, sinMem := sinMem, outMem := uninit }
    let st2 := rope_kernel_fw A seq_len head_num st
    let output : PtTensor :=
      { d0 := t.d0, d1 := t.d1, heads := t.heads, dim := t.dim,
        s0 := t.s0, s1 := t.s1, mem := st2.outMem }
    let ctx2 : Ctx :=
      { cos := some cosMem, sin := some sinMem,
        BLOCK_SIZE := some BLOCK_SIZE, tensor_format := some tensor_format }
    .ok { output := if tensor_format = "bshd" then transpose01 output else output,
          ctx := ctx2 }
  else
    .error ("Unsupported tensor_format: " ++ tensor_format ++ ".")

/-! Frequency-table builders. -/

/-- A value together with the diagnostic lines printed while computing
it (the odd-dimension path of `compute_theta` prints and continues). -/
structure WithWarnings (α : Type) where
  warnings : List String
  val : α

/-- `compute_theta(dim, base)`: the 1-based schedule
`theta_i = base ** (-2*(i - 1) / dim)` for `i = 1, ..., dim/2`, read here
at the 0-based index `k = i - 1`.  On an odd `dim` the source prints
a message and still returns the table. -/
noncomputable def compute_theta (dim : Nat) (base : ℝ) : WithWarnings (Nat → ℝ) :=
  { warnings := if dim % 2 ≠ 0 then ["嵌入维度 dim 必须为偶数"] else [],
    val := fun k => base ^ ((-(2 * ((k + 1 : ℝ) - 1))) / (dim : ℝ)) }

/-- `torch.polar(r, θ) = r * (cos θ + i sin θ)`. -/
noncomputable def polar (r θ : ℝ) : ℂ := ⟨r * Real.cos θ, r * Real.sin θ⟩

/-- The angle table `m_theta = torch.outer(m, theta)` built by
`precompute_freqs_cis` before taking `torch.polar`. -/
noncomputable def m_theta (dim : Nat) (base : ℝ) : Nat → Nat → ℝ :=
  fun m k => (m : ℝ) * (compute_theta dim base).val k

/-- `precompute_freqs_cis(dim, seq_len, base)`: the unit-magnitude complex
rotations `polar(1, m_theta)`; position index `m` ranges over
`[0, seq_len)`.  Inherits the printed warnings of `compute_theta`. -/
noncomputable def precompute_freqs_cis (dim seq_len : Nat) (base : ℝ) :
    WithWarnings (Nat → Nat → ℂ) :=
  { warnings := (compute_theta dim base).warnings,
    val := fun m k => polar 1 (m_theta dim base m k) }

/-- `precompute_theta_pos_frequencies(head_dim, seq_len, device, theta)`:
asserts evenness, then builds `theta_numerator = arange(0, head_dim, 2)`
(entry `k` is `2k`), `theta = 1.0 / (theta ** (theta_numerator / head_dim))`
and the polar table of the outer product with positions. -/
noncomputable def precompute_theta_pos_frequencies (head_dim seq_len : Nat) (theta : ℝ) :
    Except String (Nat → Nat → ℂ) :=
  if head_dim % 2 = 0 then
    .ok fun m k =>
      polar 1 ((m : ℝ) * (1 / (theta ^ (((2 * k : Nat) : ℝ) / (head_dim : ℝ)))))
  else .error "Dimension must be divisible by 2"

/-- The cos table the host builds from an angle value (`torch.cos` on the
sliced freqs), as a two-index table. -/
noncomputable def ropeCosTable (freqs : Freqs) : Nat → Nat → ℝ :=
  fun m k => Real.cos (freqs.val m k)

/-- The sin table the host builds from an angle value. -/
noncomputable def ropeSinTable (freqs : Freqs) : Nat → Nat → ℝ :=
  fun m k => Real.sin (freqs.val m k)

/-! Concrete instances used by the witness theorems. -/

/-- Kernel arguments for a tiny contiguous tensor: `seq_len = 1`,
`batch = 1`, `heads = 1`, `head_dim = 2`, `BLOCK_SIZE = 1`. -/
def A0 : KernelArgs :=
  { in_seq_len_stride := 2, in_batch_stride := 2, cos_stride := 1,
    sin_stride := 1, seq_len := 1, head_dim := 2, BLOCK_SIZE := 1,
    BATCH_NUM := 1 }

/-- A kernel state whose three input buffers hold the address itself as
value and whose output buffer starts at zero. -/
def ST0 : KernelState :=
  { inputMem := fun a => (a : ℝ), cosMem := fun a => (a : ℝ),
    sinMem := fun a => (a : ℝ), outMem := fun _ => 0 }

/-- The two-index reading of the flat buffer `fun a => a` at row stride 1. -/
def T0 : Nat → Nat → ℝ := fun r c => ((r * 1 + c : Nat) : ℝ)

/-- Kernel arguments with `head_dim = 6` (so `head_dim / 2 = 3` is not a
power of two and `BLOCK_SIZE = 4`). -/
def A6 : KernelArgs :=
  { in_seq_len_stride := 6, in_batch_stride := 6, cos_stride := 3,
    sin_stride := 3, seq_len := 1, head_dim := 6,
    BLOCK_SIZE := next_power_of_2 3, BATCH_NUM := 1 }

/-- A tiny activation tensor: `seq = 2`, `batch = 1`, `heads = 1`,
`dim = 3` (odd on purpose), contiguous strides. -/
def Todd : PtTensor :=
  { d0 := 2, d1 := 1, heads := 1, dim := 3, s0 := 3, s1 := 3, mem := fun a => (a : ℝ) }

/-- A frequency table with a single row, shorter than the two positions of
`Todd`. -/
def Fshort : Freqs := { rows := 1, cols := 1, val := fun _ _ => 0 }

/-- A context whose attributes are all absent before the call. -/
def CTX0 : Ctx := { cos := none, sin := none, BLOCK_SIZE := none, tensor_format := none }

/-! Generic lemmas about folding stores over a flat buffer. -/

/-- The float literal `0.0` of the source denotes the real number 0. -/
theorem float_zero : (0.0 : ℝ) = 0 := by norm_num

theorem foldl_storeOut_inputMem (ws : List (Nat × ℝ)) (st : KernelState) :
    (ws.foldl storeOut st).inputMem = st.inputMem := by
  induction ws generalizing st with
  | nil => rfl
  | cons w ws ih => simpa [storeOut] using ih (storeOut st w)

theorem foldl_storeOut_cosMem (ws : List (Nat × ℝ)) (st : KernelState) :
    (ws.foldl storeOut st).cosMem = st.cosMem := by
  induction ws generalizing st with
  | nil => rfl
  | cons w ws ih => simpa [storeOut] using ih (storeOut st w)

theorem foldl_storeOut_sinMem (ws : List (Nat × ℝ)) (st : KernelState) :
    (ws.foldl storeOut st).sinMem = st.sinMem := by
  induction ws generalizing st with
  | nil => rfl
  | cons w ws ih => simpa [storeOut] using ih (storeOut st w)

theorem foldl_storeOut_outMem (ws : List (Nat × ℝ)) (st : KernelState) :
    (ws.foldl storeOut st).outMem = ws.foldl store st.outMem := by
  induction ws generalizing st with
  | nil => rfl
  | cons w ws ih => simpa [storeOut, store] using ih (storeOut st w)

/-- If every write to address `a` in the list writes the value `v` and the
buffer already holds `v` at `a`, the folded buffer holds `v` at `a`. -/
theorem foldl_store_of_forall (ws : List (Nat × ℝ)) (m : Nat → ℝ) (a : Nat) (v : ℝ)
    (h1 : ∀ p ∈ ws, p.1 = a → p.2 = v) (h0 : m a = v) :
    (ws.foldl store m) a = v := by
  induction ws generalizing m with
  | nil => simpa using h0
  | cons w ws ih =>
      refine ih (store m w) (fun p hp => h1 p (List.mem_cons_of_mem _ hp)) ?_
      by_cases hw : a = w.1
      · simpa [store, hw] using h1 w (List.mem_cons_self _ _) hw.symm
      · simpa [store, hw] using h0

/-- If the pair `(a, v)` occurs in the write list and every write to `a`
writes `v`, the folded buffer holds `v` at `a`. -/
theorem foldl_store_of_mem (ws : List (Nat × ℝ)) (m : Nat → ℝ) (a : Nat) (v : ℝ)
    (h1 : ∀ p ∈ ws, p.1 = a → p.2 = v) (hmem : (a, v) ∈ ws) :
    (ws.foldl store m) a = v := by
  induction ws generalizing m with
  | nil => cases hmem
  | cons w ws ih =>
      rcases List.mem_cons.mp hmem with hw | hw
      · refine foldl_store_of_forall ws (store m w) a v
          (fun p hp => h1 p (List.mem_cons_of_mem _ hp)) ?_
        simp [store, ← hw]
      · exact ih (store m w) (fun p hp => h1 p (List.mem_cons_of_mem _ hp)) hw

/-- An address never written keeps the initial contents of the buffer. -/
theorem foldl_store_notMem (ws : List (Nat × ℝ)) (m : Nat → ℝ) (a : Nat)
    (h : ∀ p ∈ ws, p.1 ≠ a) : (ws.foldl store m) a = m a := by
  induction ws generalizing m with
  | nil => rfl
  | cons w ws ih =>
      have hw : a ≠ w.1 := fun hc => h w (List.mem_cons_self _ _) hc.symm
      simpa [store, hw] using ih (store m w) (fun p hp => h p (List.mem_cons_of_mem _ hp))

/-- Folding a functional write list (any two writes to the same address
write the same value) is invariant under permutation of the writes. -/
theorem foldl_store_perm {ws₁ ws₂ : List (Nat × ℝ)} (hperm : ws₁.Perm ws₂) :
    (∀ p ∈ ws₁, ∀ q ∈ ws₁, p.1 = q.1 → p.2 = q.2) →
      ∀ m : Nat → ℝ, ws₁.foldl store m = ws₂.foldl store m := by
  induction hperm with
  | nil => intro _ _; rfl
  | cons x hp ih =>
      intro hfun m
      simp only [List.foldl_cons]
      exact ih (fun p hp' q hq' =>
        hfun p (List.mem_cons_of_mem _ hp') q (List.mem_cons_of_mem _ hq')) (store m x)
  | swap x y l =>
      intro hfun m
      simp only [List.foldl_cons]
      have hxy : store (store m y) x = store (store m x) y := by
        funext a
        simp only [store]
        by_cases hx : a = x.1 <;> by_cases hy : a = y.1
        · have hvals : x.2 = y.2 :=
            hfun x (by simp) y (by simp) (by rw [← hx, hy])
          simp [hx, hy, hvals]
        · have hne : ¬ x.1 = y.1 := by rw [← hx]; exact hy
          simp [hx, hy, hne]
        · have hne : ¬ y.1 = x.1 := by rw [← hy]; exact hx
          simp [hx, hy, hne]
        · simp [hx, hy]
      rw [hxy]
  | trans h12 _ ih12 ih23 =>
      intro hfun m
      rw [ih12 hfun m]
      exact ih23 (fun p hp' q hq' =>
        hfun p (h12.mem_iff.mpr hp') q (h12.mem_iff.mpr hq')) m

/-! Address arithmetic: injectivity of the offset computation under
contiguous strides. -/

/-- Uniqueness of quotient and remainder. -/
theorem mixed_radix_inj {q s s' r r' : Nat} (hr : r < q) (hr' : r' < q)
    (h : s * q + r = s' * q + r') : s = s' ∧ r = r' := by
  have hq : 0 < q := lt_of_le_of_lt (Nat.zero_le r) hr
  have hs : s = s' := by
    have h1 : (s * q + r) / q = (s' * q + r') / q := by rw [h]
    rwa [Nat.mul_comm s q, Nat.mul_comm s' q, Nat.mul_add_div hq, Nat.mul_add_div hq,
      Nat.div_eq_of_lt hr, Nat.div_eq_of_lt hr', Nat.add_zero, Nat.add_zero] at h1
  subst hs
  exact ⟨rfl, by omega⟩

/-- Under contiguous strides (`in_batch_stride = head_num * head_dim`,
`in_seq_len_stride = BATCH_NUM * in_batch_stride`), the linear offset
`s * in_seq_len_stride + b * in_batch_stride + h * head_dim + f` determines
`s`, `b`, `h` and `f` uniquely, for in-range `b`, `h`, `f`. -/
theorem offset_inj {A : KernelArgs} {head_num : Nat}
    (hS1 : A.in_batch_stride = head_num * A.head_dim)
    (hS0 : A.in_seq_len_stride = A.BATCH_NUM * A.in_batch_stride)
    {s b h f s' b' h' f' : Nat}
    (hb : b < A.BATCH_NUM) (hb' : b' < A.BATCH_NUM)
    (hh : h < head_num) (hh' : h' < head_num)
    (hf : f < A.head_dim) (hf' : f' < A.head_dim)
    (heq : s * A.in_seq_len_stride + b * A.in_batch_stride + h * A.head_dim + f
         = s' * A.in_seq_len_stride + b' * A.in_batch_stride + h' * A.head_dim + f') :
    s = s' ∧ b = b' ∧ h = h' ∧ f = f' := by
  have hin : ∀ {h0 f0 : Nat}, h0 < head_num → f0 < A.head_dim →
      h0 * A.head_dim + f0 < A.in_batch_stride := by
    intro h0 f0 hh0 hf0
    rw [hS1]
    calc h0 * A.head_dim + f0 < h0 * A.head_dim + A.head_dim := by omega
      _ = (h0 + 1) * A.head_dim := by ring
      _ ≤ head_num * A.head_dim := Nat.mul_le_mul_right _ (by omega)
  have hmid : ∀ {b0 h0 f0 : Nat}, b0 < A.BATCH_NUM → h0 < head_num → f0 < A.head_dim →
      b0 * A.in_batch_stride + (h0 * A.head_dim + f0) < A.in_seq_len_stride := by
    intro b0 h0 f0 hb0 hh0 hf0
    rw [hS0]
    calc b0 * A.in_batch_stride + (h0 * A.head_dim + f0)
        < b0 * A.in_batch_stride + A.in_batch_stride := by
          have := hin hh0 hf0; omega
      _ = (b0 + 1) * A.in_batch_stride := by ring
      _ ≤ A.BATCH_NUM * A.in_batch_stride := Nat.mul_le_mul_right _ (by omega)
  have heq2 : s * A.in_seq_len_stride + (b * A.in_batch_stride + (h * A.head_dim + f))
      = s' * A.in_seq_len_stride + (b' * A.in_batch_stride + (h' * A.head_dim + f')) := by
    rw [← Nat.add_assoc, ← Nat.add_assoc, ← Nat.add_assoc, ← Nat.add_assoc]
    exact heq
  obtain ⟨hs, hrest⟩ := mixed_radix_inj (hmid hb hh hf) (hmid hb' hh' hf') heq2
  obtain ⟨hbeq, hrest2⟩ := mixed_radix_inj (hin hh hf) (hin hh' hf') hrest
  obtain ⟨hheq, hfeq⟩ := mixed_radix_inj hf hf' hrest2
  exact ⟨hs, hbeq, hheq, hfeq⟩

theorem x1_offset_eq_write_offset (A : KernelArgs) (s b h lane : Nat) :
    x1_offset A s b h lane = write_offset A s b h 0 lane := by
  simp [x1_offset, write_offset]

theorem x2_offset_eq_write_offset (A : KernelArgs) (s b h lane : Nat) :
    x2_offset A s b h lane = write_offset A s b h 1 lane := by
  simp [x2_offset, write_offset, Nat.add_assoc]

/-- The feature index `half * head_dim_mid + lane` stays below `head_dim`. -/
theorem feature_lt_head_dim {A : KernelArgs} {half lane : Nat}
    (hhalf : half < 2) (hlane : lane < head_dim_mid A) :
    half * head_dim_mid A + lane < A.head_dim := by
  have h2 : 2 * head_dim_mid A ≤ A.head_dim := by
    unfold head_dim_mid; omega
  have hmul : half * head_dim_mid A ≤ 1 * head_dim_mid A :=
    Nat.mul_le_mul_right _ (by omega)
  omega

/-- Distinct work tuples `(s, b, h, half, lane)` compute distinct output
offsets, under contiguous strides. -/
theorem write_offset_inj {A : KernelArgs} {head_num : Nat}
    (hS1 : A.in_batch_stride = head_num * A.head_dim)
    (hS0 : A.in_seq_len_stride = A.BATCH_NUM * A.in_batch_stride)
    {s b h half lane s' b' h' half' lane' : Nat}
    (hb : b < A.BATCH_NUM) (hb' : b' < A.BATCH_NUM)
    (hh : h < head_num) (hh' : h' < head_num)
    (hhalf : half < 2) (hhalf' : half' < 2)
    (hlane : lane < head_dim_mid A) (hlane' : lane' < head_dim_mid A)
    (heq : write_offset A s b h half lane = write_offset A s' b' h' half' lane') :
    s = s' ∧ b = b' ∧ h = h' ∧ half = half' ∧ lane = lane' := by
  obtain ⟨hs, hbeq, hheq, hfeq⟩ := offset_inj hS1 hS0 hb hb' hh hh'
    (feature_lt_head_dim hhalf hlane) (feature_lt_head_dim hhalf' hlane') heq
  obtain ⟨hhalfeq, hlaneeq⟩ := mixed_radix_inj hlane hlane' hfeq
  exact ⟨hs, hbeq, hheq, hhalfeq, hlaneeq⟩

/-! Membership characterizations of the write lists. -/

theorem mem_batchWrites {A : KernelArgs} {input cosMem sinMem : Nat → ℝ}
    {s h b : Nat} {p : Nat × ℝ} :
    p ∈ batchWrites A input cosMem sinMem s h b ↔
      ∃ lane, lane < A.BLOCK_SIZE ∧ lane < head_dim_mid A ∧
        (p = (x1_offset A s b h lane, y1val A input cosMem sinMem s b h lane) ∨
         p = (x2_offset A s b h lane, y2val A input cosMem sinMem s b h lane)) := by
  simp only [batchWrites, List.mem_append, List.mem_filterMap, List.mem_range, laneMask]
  constructor
  · rintro (⟨lane, hlt, heq⟩ | ⟨lane, hlt, heq⟩) <;>
      by_cases hm : lane < head_dim_mid A <;> simp [hm] at heq
    · exact ⟨lane, hlt, hm, Or.inl heq.symm⟩
    · exact ⟨lane, hlt, hm, Or.inr heq.symm⟩
  · rintro ⟨lane, hlt, hm, heq | heq⟩
    · exact Or.inl ⟨lane, hlt, by simp [hm, heq]⟩
    · exact Or.inr ⟨lane, hlt, by simp [hm, heq]⟩

theorem mem_kernelWrites {A : KernelArgs} {grid_seq head_num : Nat}
    {input cosMem sinMem : Nat → ℝ} {p : Nat × ℝ} :
    p ∈ kernelWrites A grid_seq head_num input cosMem sinMem ↔
      ∃ s h b lane, s < grid_seq ∧ h < head_num ∧ b < A.BATCH_NUM ∧
        lane < A.BLOCK_SIZE ∧ lane < head_dim_mid A ∧
        (p = (x1_offset A s b h lane, y1val A input cosMem sinMem s b h lane) ∨
         p = (x2_offset A s b h lane, y2val A input cosMem sinMem s b h lane)) := by
  simp only [kernelWrites, unitWrites, List.mem_flatMap, List.mem_range, mem_batchWrites]
  constructor
  · rintro ⟨s, hs, h, hh, b, hb, lane, hlt, hm, hcase⟩
    exact ⟨s, h, b, lane, hs, hh, hb, hlt, hm, hcase⟩
  · rintro ⟨s, h, b, lane, hs, hh, hb, hlt, hm, hcase⟩
    exact ⟨s, hs, h, hh, b, hb, lane, hlt, hm, hcase⟩

theorem mem_unitWrites {A : KernelArgs} {input cosMem sinMem : Nat → ℝ}
    {s h : Nat} {p : Nat × ℝ} :
    p ∈ unitWrites A input cosMem sinMem s h ↔
      ∃ b lane, b < A.BATCH_NUM ∧ lane < A.BLOCK_SIZE ∧ lane < head_dim_mid A ∧
        (p = (x1_offset A s b h lane, y1val A input cosMem sinMem s b h lane) ∨
         p = (x2_offset A s b h lane, y2val A input cosMem sinMem s b h lane)) := by
  simp only [unitWrites, List.mem_flatMap, List.mem_range, mem_batchWrites]
  constructor
  · rintro ⟨b, hb, lane, hlt, hm, hc⟩; exact ⟨b, lane, hb, hlt, hm, hc⟩
  · rintro ⟨b, lane, hb, hlt, hm, hc⟩; exact ⟨b, hb, lane, hlt, hm, hc⟩

/-- The key of any store of a batch iteration decodes as a `write_offset`
with the coordinates of that iteration. -/
theorem key_shape_batchWrites {A : KernelArgs} {input cosMem sinMem : Nat → ℝ}
    {s h b : Nat} {p : Nat × ℝ}
    (hp : p ∈ batchWrites A input cosMem sinMem s h b) :
    ∃ half lane, half < 2 ∧ lane < head_dim_mid A ∧
      p.1 = write_offset A s b h half lane := by
  rcases mem_batchWrites.mp hp with ⟨lane, _, hm, h1 | h2⟩
  · exact ⟨0, lane, by omega, hm, by rw [h1]; exact x1_offset_eq_write_offset A s b h lane⟩
  · exact ⟨1, lane, by omega, hm, by rw [h2]; exact x2_offset_eq_write_offset A s b h lane⟩

/-- The key of any store of a grid unit decodes as a `write_offset` with
the coordinates of that unit. -/
theorem key_shape_unitWrites {A : KernelArgs} {input cosMem sinMem : Nat → ℝ}
    {s h : Nat} {p : Nat × ℝ}
    (hp : p ∈ unitWrites A input cosMem sinMem s h) :
    ∃ b half lane, b < A.BATCH_NUM ∧ half < 2 ∧ lane < head_dim_mid A ∧
      p.1 = write_offset A s b h half lane := by
  rcases mem_unitWrites.mp hp with ⟨b, lane, hb, _, hm, h1 | h2⟩
  · exact ⟨b, 0, lane, hb, by omega, hm, by rw [h1]; exact x1_offset_eq_write_offset A s b h lane⟩
  · exact ⟨b, 1, lane, hb, by omega, hm, by rw [h2]; exact x2_offset_eq_write_offset A s b h lane⟩

/-- Contrapositive form of `write_offset_inj`: tuples that differ in any
coordinate give different offsets. -/
theorem write_offset_ne {A : KernelArgs} {head_num : Nat}
    (hS1 : A.in_batch_stride = head_num * A.head_dim)
    (hS0 : A.in_seq_len_stride = A.BATCH_NUM * A.in_batch_stride)
    {s b h half lane s' b' h' half' lane' : Nat}
    (hb : b < A.BATCH_NUM) (hb' : b' < A.BATCH_NUM)
    (hh : h < head_num) (hh' : h' < head_num)
    (hhalf : half < 2) (hhalf' : half' < 2)
    (hlane : lane < head_dim_mid A) (hlane' : lane' < head_dim_mid A)
    (hne : s ≠ s' ∨ b ≠ b' ∨ h ≠ h' ∨ half ≠ half' ∨ lane ≠ lane') :
    write_offset A s b h half lane ≠ write_offset A s' b' h' half' lane' := by
  intro hc
  obtain ⟨h1, h2, h3, h4, h5⟩ :=
    write_offset_inj hS1 hS0 hb hb' hh hh' hhalf hhalf' hlane hlane' hc
  tauto

/-- Every two distinct stores of one kernel dispatch target distinct
output addresses: each output location is written at most once. -/
theorem kernelWrites_pairwise_ne {A : KernelArgs} {grid_seq head_num : Nat}
    {input cosMem sinMem : Nat → ℝ}
    (hS1 : A.in_batch_stride = head_num * A.head_dim)
    (hS0 : A.in_seq_len_stride = A.BATCH_NUM * A.in_batch_stride) :
    (kernelWrites A grid_seq head_num input cosMem sinMem).Pairwise
      (fun p q => p.1 ≠ q.1) := by
  unfold kernelWrites
  rw [List.pairwise_flatMap]
  constructor
  · intro s _
    rw [List.pairwise_flatMap]
    constructor
    · intro h hh
      rw [List.mem_range] at hh
      unfold unitWrites
      rw [List.pairwise_flatMap]
      constructor
      · intro b hb
        rw [List.mem_range] at hb
        unfold batchWrites
        rw [List.pairwise_append]
        refine ⟨?_, ?_, ?_⟩
        · rw [List.pairwise_filterMap]
          refine (List.pairwise_lt_range _).imp ?_
          intro l1 l2 hlt p hp q hq
          by_cases hm1 : laneMask A l1 = true <;> simp [hm1] at hp
          by_cases hm2 : laneMask A l2 = true <;> simp [hm2] at hq
          subst hp; subst hq
          simp only [laneMask, decide_eq_true_eq] at hm1 hm2
          simp only [x1_offset_eq_write_offset]
          exact write_offset_ne hS1 hS0 hb hb hh hh (by omega) (by omega) hm1 hm2
            (by omega)
        · rw [List.pairwise_filterMap]
          refine (List.pairwise_lt_range _).imp ?_
          intro l1 l2 hlt p hp q hq
          by_cases hm1 : laneMask A l1 = true <;> simp [hm1] at hp
          by_cases hm2 : laneMask A l2 = true <;> simp [hm2] at hq
          subst hp; subst hq
          simp only [laneMask, decide_eq_true_eq] at hm1 hm2
          simp only [x2_offset_eq_write_offset]
          exact write_offset_ne hS1 hS0 hb hb hh hh (by omega) (by omega) hm1 hm2
            (by omega)
        · intro p hp q hq
          rw [List.mem_filterMap] at hp hq
          obtain ⟨l1, _, hp⟩ := hp
          obtain ⟨l2, _, hq⟩ := hq
          by_cases hm1 : laneMask A l1 = true <;> simp [hm1] at hp
          by_cases hm2 : laneMask A l2 = true <;> simp [hm2] at hq
          subst hp; subst hq
          simp only [laneMask, decide_eq_true_eq] at hm1 hm2
          simp only [x1_offset_eq_write_offset, x2_offset_eq_write_offset]
          exact write_offset_ne hS1 hS0 hb hb hh hh (by omega) (by omega) hm1 hm2
            (by omega)
      · refine (List.pairwise_lt_range _).imp_of_mem ?_
        intro b1 b2 hb1 hb2 hlt p hp q hq
        rw [List.mem_range] at hb1 hb2
        obtain ⟨half, lane, hhalf, hlane, hkey⟩ := key_shape_batchWrites hp
        obtain ⟨half', lane', hhalf', hlane', hkey'⟩ := key_shape_batchWrites hq
        rw [hkey, hkey']
        exact write_offset_ne hS1 hS0 hb1 hb2 hh hh hhalf hhalf'
          hlane hlane' (by omega)
    · refine (List.pairwise_lt_range _).imp_of_mem ?_
      intro h1 h2 hh1 hh2 hlt p hp q hq
      rw [List.mem_range] at hh1 hh2
      obtain ⟨b, half, lane, hb, hhalf, hlane, hkey⟩ := key_shape_unitWrites hp
      obtain ⟨b', half', lane', hb', hhalf', hlane', hkey'⟩ := key_shape_unitWrites hq
      rw [hkey, hkey']
      exact write_offset_ne hS1 hS0 hb hb' hh1 hh2 hhalf hhalf'
        hlane hlane' (by omega)
  · refine (List.pairwise_lt_range _).imp_of_mem ?_
    intro s1 s2 _ _ hlt p hp q hq
    rw [List.mem_flatMap] at hp hq
    obtain ⟨h1, hh1, hp⟩ := hp
    obtain ⟨h2, hh2, hq⟩ := hq
    rw [List.mem_range] at hh1 hh2
    obtain ⟨b, half, lane, hb, hhalf, hlane, hkey⟩ := key_shape_unitWrites hp
    obtain ⟨b', half', lane', hb', hhalf', hlane', hkey'⟩ := key_shape_unitWrites hq
    rw [hkey, hkey']
    exact write_offset_ne hS1 hS0 hb hb' hh1 hh2 hhalf hhalf'
      hlane hlane' (by omega)

/-- Any two stores of the kernel dispatch that target the same address
store the same value (under contiguous strides the address decodes the
work tuple, which determines the value). -/
theorem kernelWrites_functional {A : KernelArgs} {grid_seq head_num : Nat}
    {input cosMem sinMem : Nat → ℝ}
    (hS1 : A.in_batch_stride = head_num * A.head_dim)
    (hS0 : A.in_seq_len_stride = A.BATCH_NUM * A.in_batch_stride) :
    ∀ p ∈ kernelWrites A grid_seq head_num input cosMem sinMem,
      ∀ q ∈ kernelWrites A grid_seq head_num input cosMem sinMem,
        p.1 = q.1 → p.2 = q.2 := by
  intro p hp q hq hkey
  rw [mem_kernelWrites] at hp hq
  obtain ⟨s, h, b, lane, _, hh, hb, _, hm, hcase⟩ := hp
  obtain ⟨s', h', b', lane', _, hh', hb', _, hm', hcase'⟩ := hq
  rcases hcase with h1 | h2 <;> rcases hcase' with h1' | h2' <;> subst_vars
  · simp only [x1_offset_eq_write_offset] at hkey
    obtain ⟨hs, hbe, hhe, _, hle⟩ := write_offset_inj hS1 hS0 hb hb' hh hh'
      (by omega) (by omega) hm hm' hkey
    subst_vars; rfl
  · simp only [x1_offset_eq_write_offset, x2_offset_eq_write_offset] at hkey
    obtain ⟨_, _, _, hhalf, _⟩ := write_offset_inj hS1 hS0 hb hb' hh hh'
      (by omega) (by omega) hm hm' hkey
    omega
  · simp only [x1_offset_eq_write_offset, x2_offset_eq_write_offset] at hkey
    obtain ⟨_, _, _, hhalf, _⟩ := write_offset_inj hS1 hS0 hb hb' hh hh'
      (by omega) (by omega) hm hm' hkey
    omega
  · simp only [x2_offset_eq_write_offset] at hkey
    obtain ⟨hs, hbe, hhe, _, hle⟩ := write_offset_inj hS1 hS0 hb hb' hh hh'
      (by omega) (by omega) hm hm' hkey
    subst_vars; rfl

/-! Bounds of the computed offsets. -/

/-- The block width always covers every feature-pair lane. -/
theorem le_next_power_of_2 (n : Nat) : n ≤ next_power_of_2 n := by
  unfold next_power_of_2
  by_cases h : n = 0
  · simp [h]
  · rw [if_neg h]
    exact Nat.le_pow_clog (by decide) n

/-- Under contiguous strides a write offset stays inside the tensor
extent `seq_len * in_seq_len_stride`. -/
theorem write_offset_lt {A : KernelArgs} {head_num : Nat}
    (hS1 : A.in_batch_stride = head_num * A.head_dim)
    (hS0 : A.in_seq_len_stride = A.BATCH_NUM * A.in_batch_stride)
    {s b h half lane : Nat}
    (hs : s < A.seq_len) (hb : b < A.BATCH_NUM) (hh : h < head_num)
    (hhalf : half < 2) (hlane : lane < head_dim_mid A) :
    write_offset A s b h half lane < A.seq_len * A.in_seq_len_stride := by
  have hf : half * head_dim_mid A + lane < A.head_dim :=
    feature_lt_head_dim hhalf hlane
  have hin : h * A.head_dim + (half * head_dim_mid A + lane) < A.in_batch_stride := by
    rw [hS1]
    calc h * A.head_dim + (half * head_dim_mid A + lane)
        < h * A.head_dim + A.head_dim := by omega
      _ = (h + 1) * A.head_dim := by ring
      _ ≤ head_num * A.head_dim := Nat.mul_le_mul_right _ (by omega)
  have hmid : b * A.in_batch_stride + (h * A.head_dim + (half * head_dim_mid A + lane))
      < A.in_seq_len_stride := by
    rw [hS0]
    calc b * A.in_batch_stride + (h * A.head_dim + (half * head_dim_mid A + lane))
        < b * A.in_batch_stride + A.in_batch_stride := by omega
      _ = (b + 1) * A.in_batch_stride := by ring
      _ ≤ A.BATCH_NUM * A.in_batch_stride := Nat.mul_le_mul_right _ (by omega)
  have : write_offset A s b h half lane <
      s * A.in_seq_len_stride + A.in_seq_len_stride := by
    unfold write_offset; omega
  calc write_offset A s b h half lane
      < s * A.in_seq_len_stride + A.in_seq_len_stride := this
    _ = (s + 1) * A.in_seq_len_stride := by ring
    _ ≤ A.seq_len * A.in_seq_len_stride := Nat.mul_le_mul_right _ (by omega)

/-! Membership characterizations of the read-address lists. -/

theorem mem_inputReadAddrs {A : KernelArgs} {grid_seq head_num : Nat} {a : Nat} :
    a ∈ inputReadAddrs A grid_seq head_num ↔
      ∃ s h b lane, s < grid_seq ∧ h < head_num ∧ b < A.BATCH_NUM ∧
        lane < A.BLOCK_SIZE ∧ lane < head_dim_mid A ∧
        (a = x1_offset A s b h lane ∨ a = x2_offset A s b h lane) := by
  simp only [inputReadAddrs, List.mem_flatMap, List.mem_append, List.mem_filterMap,
    List.mem_range, laneMask]
  constructor
  · rintro ⟨s, hs, h, hh, b, hb, ⟨lane, hlt, heq⟩ | ⟨lane, hlt, heq⟩⟩ <;>
      by_cases hm : lane < head_dim_mid A <;> simp [hm] at heq
    · exact ⟨s, h, b, lane, hs, hh, hb, hlt, hm, Or.inl heq.symm⟩
    · exact ⟨s, h, b, lane, hs, hh, hb, hlt, hm, Or.inr heq.symm⟩
  · rintro ⟨s, h, b, lane, hs, hh, hb, hlt, hm, heq | heq⟩
    · exact ⟨s, hs, h, hh, b, hb, Or.inl ⟨lane, hlt, by simp [hm, heq]⟩⟩
    · exact ⟨s, hs, h, hh, b, hb, Or.inr ⟨lane, hlt, by simp [hm, heq]⟩⟩

theorem mem_cosReadAddrs {A : KernelArgs} {grid_seq head_num : Nat} {a : Nat} :
    a ∈ cosReadAddrs A grid_seq head_num ↔
      ∃ s h lane, s < grid_seq ∧ h < head_num ∧
        lane < A.BLOCK_SIZE ∧ lane < head_dim_mid A ∧ a = cos_offset A s lane := by
  simp only [cosReadAddrs, List.mem_flatMap, List.mem_filterMap, List.mem_range, laneMask]
  constructor
  · rintro ⟨s, hs, h, hh, lane, hlt, heq⟩
    by_cases hm : lane < head_dim_mid A <;> simp [hm] at heq
    exact ⟨s, h, lane, hs, hh, hlt, hm, heq.symm⟩
  · rintro ⟨s, h, lane, hs, hh, hlt, hm, heq⟩
    exact ⟨s, hs, h, hh, lane, hlt, by simp [hm, heq]⟩

theorem mem_sinReadAddrs {A : KernelArgs} {grid_seq head_num : Nat} {a : Nat} :
    a ∈ sinReadAddrs A grid_seq head_num ↔
      ∃ s h lane, s < grid_seq ∧ h < head_num ∧
        lane < A.BLOCK_SIZE ∧ lane < head_dim_mid A ∧ a = sin_offset A s lane := by
  simp only [sinReadAddrs, List.mem_flatMap, List.mem_filterMap, List.mem_range, laneMask]
  constructor
  · rintro ⟨s, hs, h, hh, lane, hlt, heq⟩
    by_cases hm : lane < head_dim_mid A <;> simp [hm] at heq
    exact ⟨s, h, lane, hs, hh, hlt, hm, heq.symm⟩
  · rintro ⟨s, h, lane, hs, hh, hlt, hm, heq⟩
    exact ⟨s, hs, h, hh, lane, hlt, by simp [hm, heq]⟩

/-! Claim theorems for the kernel. -/

/-- C1: for every invocation of the rotation kernel on an activation
tensor of shape `[seq_len, batch_num, head_num, head_dim]` (contiguous
strides) with even `head_dim`, and every sequence position `s`, batch `b`,
head `h` and lane `k < head_dim / 2`: the output at `(s, b, h, k)` is
`x1 * cos - x2 * sin` and the output at `(s, b, h, k + head_dim / 2)` is
`x1 * sin + x2 * cos`, where `x1`, `x2` are the inputs at those two
positions and `cos`, `sin` are the table entries at row `s % seq_len`,
column `k`. -/
theorem C1_kernel_rotation (A : KernelArgs) (grid_seq head_num : Nat)
    (st : KernelState) (cosT sinT : Nat → Nat → ℝ)
    (hS1 : A.in_batch_stride = head_num * A.head_dim)
    (hS0 : A.in_seq_len_stride = A.BATCH_NUM * A.in_batch_stride)
    (heven : A.head_dim % 2 = 0)
    (hblock : head_dim_mid A ≤ A.BLOCK_SIZE)
    (hcos : ∀ r c, st.cosMem (r * A.cos_stride + c) = cosT r c)
    (hsin : ∀ r c, st.sinMem (r * A.sin_stride + c) = sinT r c)
    (s b h k : Nat) (hs : s < grid_seq) (hb : b < A.BATCH_NUM)
    (hh : h < head_num) (hk : k < A.head_dim / 2) :
    (rope_kernel_fw A grid_seq head_num st).outMem (x1_offset A s b h k) =
        st.inputMem (x1_offset A s b h k) * cosT (s % A.seq_len) k -
          st.inputMem (x2_offset A s b h k) * sinT (s % A.seq_len) k ∧
    (rope_kernel_fw A grid_seq head_num st).outMem (x2_offset A s b h k) =
        st.inputMem (x1_offset A s b h k) * sinT (s % A.seq_len) k +
          st.inputMem (x2_offset A s b h k) * cosT (s % A.seq_len) k := by
  have hmid : k < head_dim_mid A := hk
  have hfun := @kernelWrites_functional A grid_seq head_num
    st.inputMem st.cosMem st.sinMem hS1 hS0
  have hout : (rope_kernel_fw A grid_seq head_num st).outMem =
      (kernelWrites A grid_seq head_num st.inputMem st.cosMem st.sinMem).foldl
        store st.outMem := by
    rw [rope_kernel_fw, foldl_storeOut_outMem]
  have hy1 : y1val A st.inputMem st.cosMem st.sinMem s b h k =
      st.inputMem (x1_offset A s b h k) * cosT (s % A.seq_len) k -
        st.inputMem (x2_offset A s b h k) * sinT (s % A.seq_len) k := by
    simp [y1val, x1val, x2val, cosval, sinval, maskedLoad, laneMask, hmid,
      cos_offset, sin_offset, hcos, hsin]
  have hy2 : y2val A st.inputMem st.cosMem st.sinMem s b h k =
      st.inputMem (x1_offset A s b h k) * sinT (s % A.seq_len) k +
        st.inputMem (x2_offset A s b h k) * cosT (s % A.seq_len) k := by
    simp [y2val, x1val, x2val, cosval, sinval, maskedLoad, laneMask, hmid,
      cos_offset, sin_offset, hcos, hsin]
  constructor
  · have hmem : (x1_offset A s b h k, y1val A st.inputMem st.cosMem st.sinMem s b h k) ∈
        kernelWrites A grid_seq head_num st.inputMem st.cosMem st.sinMem :=
      mem_kernelWrites.mpr
        ⟨s, h, b, k, hs, hh, hb, lt_of_lt_of_le hmid hblock, hmid, Or.inl rfl⟩
    rw [hout, foldl_store_of_mem _ _ _ _ (fun p hp hkey => hfun p hp _ hmem hkey) hmem]
    exact hy1
  · have hmem : (x2_offset A s b h k, y2val A st.inputMem st.cosMem st.sinMem s b h k) ∈
        kernelWrites A grid_seq head_num st.inputMem st.cosMem st.sinMem :=
      mem_kernelWrites.mpr
        ⟨s, h, b, k, hs, hh, hb, lt_of_lt_of_le hmid hblock, hmid, Or.inr rfl⟩
    rw [hout, foldl_store_of_mem _ _ _ _ (fun p hp hkey => hfun p hp _ hmem hkey) hmem]
    exact hy2

/-- Witness for C1 at a one-element grid with `head_dim = 2` and
identity-like buffers. -/
theorem C1_kernel_rotation_witness :
    (rope_kernel_fw A0 1 1 ST0).outMem (x1_offset A0 0 0 0 0) =
        ST0.inputMem (x1_offset A0 0 0 0 0) * T0 (0 % A0.seq_len) 0 -
          ST0.inputMem (x2_offset A0 0 0 0 0) * T0 (0 % A0.seq_len) 0 ∧
    (rope_kernel_fw A0 1 1 ST0).outMem (x2_offset A0 0 0 0 0) =
        ST0.inputMem (x1_offset A0 0 0 0 0) * T0 (0 % A0.seq_len) 0 +
          ST0.inputMem (x2_offset A0 0 0 0 0) * T0 (0 % A0.seq_len) 0 :=
  C1_kernel_rotation A0 1 1 ST0 T0 T0 rfl rfl rfl (by decide)
    (fun r c => rfl) (fun r c => rfl) 0 0 0 0
    (by decide) (by decide) (by decide) (by decide)

/-- C3: the table lookup of the kernel wraps cyclically: for any
sequence position `s` (also one at or beyond `seq_len`), the cos/sin row
offset is computed from row `s % seq_len`, which is a valid row index, and
the loaded cos/sin values equal those loaded for the wrapped position. -/
theorem C3_table_wraparound (A : KernelArgs) (cosMem sinMem : Nat → ℝ)
    (s lane : Nat) (hseq : 0 < A.seq_len) :
    s % A.seq_len < A.seq_len ∧
    cos_offset A s lane = (s % A.seq_len) * A.cos_stride + lane ∧
    sin_offset A s lane = (s % A.seq_len) * A.sin_stride + lane ∧
    cosval A cosMem s lane = cosval A cosMem (s % A.seq_len) lane ∧
    sinval A sinMem s lane = sinval A sinMem (s % A.seq_len) lane := by
  refine ⟨Nat.mod_lt _ hseq, rfl, rfl, ?_, ?_⟩
  · simp [cosval, cos_offset]
  · simp [sinval, sin_offset]

/-- Witness for C3 at position 5 against a table of `seq_len = 1`. -/
theorem C3_table_wraparound_witness :
    5 % A0.seq_len < A0.seq_len ∧
    cos_offset A0 5 0 = (5 % A0.seq_len) * A0.cos_stride + 0 ∧
    sin_offset A0 5 0 = (5 % A0.seq_len) * A0.sin_stride + 0 ∧
    cosval A0 ST0.cosMem 5 0 = cosval A0 ST0.cosMem (5 % A0.seq_len) 0 ∧
    sinval A0 ST0.sinMem 5 0 = sinval A0 ST0.sinMem (5 % A0.seq_len) 0 :=
  C3_table_wraparound A0 ST0.cosMem ST0.sinMem 5 0 (by decide)

/-- C4: the dispatch block width is the next power of two at or above
`head_dim / 2` (a hypothesis here, restating the assignment made by the
host wrapper), it covers every feature pair, every lane at or beyond
`head_dim / 2` is masked (its loads return the neutral 0.0 and no store of
the dispatch uses it), and under contiguous strides every store and load
address of the dispatch stays inside the declared extents of the
activation/output tensor and of the cos/sin tables, also when
`head_dim / 2` is not a power of two. -/
theorem C4_masking_no_out_of_bounds
    (A : KernelArgs) (grid_seq head_num rows : Nat) (input cosMem sinMem : Nat → ℝ)
    (hS1 : A.in_batch_stride = head_num * A.head_dim)
    (hS0 : A.in_seq_len_stride = A.BATCH_NUM * A.in_batch_stride)
    (hblock : A.BLOCK_SIZE = next_power_of_2 (A.head_dim / 2))
    (hgrid : grid_seq = A.seq_len)
    (hcols : head_dim_mid A ≤ A.cos_stride)
    (hcols' : head_dim_mid A ≤ A.sin_stride)
    (hrows : A.seq_len ≤ rows) :
    head_dim_mid A ≤ A.BLOCK_SIZE ∧
    (A.head_dim / 2 ≠ 0 → ∃ e, A.BLOCK_SIZE = 2 ^ e) ∧
    (∀ lane, head_dim_mid A ≤ lane →
      laneMask A lane = false ∧
      (∀ s b h, x1val A input s b h lane = 0 ∧ x2val A input s b h lane = 0) ∧
      (∀ s, cosval A cosMem s lane = 0 ∧ sinval A sinMem s lane = 0)) ∧
    (∀ p ∈ kernelWrites A grid_seq head_num input cosMem sinMem,
      p.1 < A.seq_len * A.in_seq_len_stride) ∧
    (∀ a ∈ inputReadAddrs A grid_seq head_num,
      a < A.seq_len * A.in_seq_len_stride) ∧
    (∀ a ∈ cosReadAddrs A grid_seq head_num, a < rows * A.cos_stride) ∧
    (∀ a ∈ sinReadAddrs A grid_seq head_num, a < rows * A.sin_stride) := by
  have hmask : ∀ lane, head_dim_mid A ≤ lane → laneMask A lane = false := by
    intro lane hl
    simp only [laneMask, decide_eq_false_iff_not]
    omega
  refine ⟨?_, ?_, ?_, ?_, ?_, ?_, ?_⟩
  · rw [hblock]; exact le_next_power_of_2 _
  · intro h0
    refine ⟨Nat.clog 2 (A.head_dim / 2), ?_⟩
    rw [hblock]; unfold next_power_of_2; rw [if_neg h0]
  · intro lane hl
    refine ⟨hmask lane hl, ?_, ?_⟩
    · intro s b h
      constructor <;> simp [x1val, x2val, maskedLoad, hmask lane hl, float_zero]
    · intro s
      constructor <;> simp [cosval, sinval, maskedLoad, hmask lane hl, float_zero]
  · intro p hp
    rw [mem_kernelWrites] at hp
    obtain ⟨s, h, b, lane, hs, hh, hb, _, hm, hc | hc⟩ := hp
    · rw [hc]
      show x1_offset A s b h lane < A.seq_len * A.in_seq_len_stride
      rw [x1_offset_eq_write_offset]
      exact write_offset_lt hS1 hS0 (hgrid ▸ hs) hb hh (by omega) hm
    · rw [hc]
      show x2_offset A s b h lane < A.seq_len * A.in_seq_len_stride
      rw [x2_offset_eq_write_offset]
      exact write_offset_lt hS1 hS0 (hgrid ▸ hs) hb hh (by omega) hm
  · intro a ha
    rw [mem_inputReadAddrs] at ha
    obtain ⟨s, h, b, lane, hs, hh, hb, _, hm, hc | hc⟩ := ha
    · rw [hc, x1_offset_eq_write_offset]
      exact write_offset_lt hS1 hS0 (hgrid ▸ hs) hb hh (by omega) hm
    · rw [hc, x2_offset_eq_write_offset]
      exact write_offset_lt hS1 hS0 (hgrid ▸ hs) hb hh (by omega) hm
  · intro a ha
    rw [mem_cosReadAddrs] at ha
    obtain ⟨s, h, lane, hs, _, _, hm, hc⟩ := ha
    subst hc
    have hseq : 0 < A.seq_len := by omega
    have hrow : s % A.seq_len < A.seq_len := Nat.mod_lt _ hseq
    calc cos_offset A s lane
        = (s % A.seq_len) * A.cos_stride + lane := rfl
      _ < (s % A.seq_len) * A.cos_stride + A.cos_stride := by omega
      _ = (s % A.seq_len + 1) * A.cos_stride := by ring
      _ ≤ rows * A.cos_stride := Nat.mul_le_mul_right _ (by omega)
  · intro a ha
    rw [mem_sinReadAddrs] at ha
    obtain ⟨s, h, lane, hs, _, _, hm, hc⟩ := ha
    subst hc
    have hseq : 0 < A.seq_len := by omega
    have hrow : s % A.seq_len < A.seq_len := Nat.mod_lt _ hseq
    calc sin_offset A s lane
        = (s % A.seq_len) * A.sin_stride + lane := rfl
      _ < (s % A.seq_len) * A.sin_stride + A.sin_stride := by omega
      _ = (s % A.seq_len + 1) * A.sin_stride := by ring
      _ ≤ rows * A.sin_stride := Nat.mul_le_mul_right _ (by omega)

/-- Witness for C4 at `head_dim = 6` (so `head_dim / 2 = 3` is not a
power of two and the block width rounds up to 4). -/
theorem C4_masking_no_out_of_bounds_witness :
    head_dim_mid A6 ≤ A6.BLOCK_SIZE ∧
    (A6.head_dim / 2 ≠ 0 → ∃ e, A6.BLOCK_SIZE = 2 ^ e) ∧
    (∀ lane, head_dim_mid A6 ≤ lane →
      laneMask A6 lane = false ∧
      (∀ s b h, x1val A6 ST0.inputMem s b h lane = 0 ∧
        x2val A6 ST0.inputMem s b h lane = 0) ∧
      (∀ s, cosval A6 ST0.cosMem s lane = 0 ∧ sinval A6 ST0.sinMem s lane = 0)) ∧
    (∀ p ∈ kernelWrites A6 1 1 ST0.inputMem ST0.cosMem ST0.sinMem,
      p.1 < A6.seq_len * A6.in_seq_len_stride) ∧
    (∀ a ∈ inputReadAddrs A6 1 1, a < A6.seq_len * A6.in_seq_len_stride) ∧
    (∀ a ∈ cosReadAddrs A6 1 1, a < 1 * A6.cos_stride) ∧
    (∀ a ∈ sinReadAddrs A6 1 1, a < 1 * A6.sin_stride) :=
  C4_masking_no_out_of_bounds A6 1 1 1 ST0.inputMem ST0.cosMem ST0.sinMem
    (by decide) (by decide) rfl rfl (by decide) (by decide) (by decide)

/-- C10: distinct work tuples `(s, b, h, half, lane)` write distinct
output offsets, and (the writes being functional and reading nothing from
the output buffer) folding the stores of the dispatch in any order, i.e.
after any permutation of the write list, produces the same output buffer. -/
theorem C10_disjoint_writes_order_independence
    (A : KernelArgs) (grid_seq head_num : Nat) (input cosMem sinMem : Nat → ℝ)
    (hS1 : A.in_batch_stride = head_num * A.head_dim)
    (hS0 : A.in_seq_len_stride = A.BATCH_NUM * A.in_batch_stride) :
    (∀ s b h half lane s' b' h' half' lane',
      b < A.BATCH_NUM → b' < A.BATCH_NUM → h < head_num → h' < head_num →
      half < 2 → half' < 2 → lane < head_dim_mid A → lane' < head_dim_mid A →
      (s, b, h, half, lane) ≠ (s', b', h', half', lane') →
      write_offset A s b h half lane ≠ write_offset A s' b' h' half' lane') ∧
    ∀ ws : List (Nat × ℝ),
      (kernelWrites A grid_seq head_num input cosMem sinMem).Perm ws →
      ∀ m : Nat → ℝ,
        ws.foldl store m =
          (kernelWrites A grid_seq head_num input cosMem sinMem).foldl store m := by
  constructor
  · intro s b h half lane s' b' h' half' lane' hb hb' hh hh' hhalf hhalf' hlane hlane' hne
    refine write_offset_ne hS1 hS0 hb hb' hh hh' hhalf hhalf' hlane hlane' ?_
    by_contra hc
    push_neg at hc
    obtain ⟨h1, h2, h3, h4, h5⟩ := hc
    subst_vars
    exact hne rfl
  · intro ws hperm m
    exact (foldl_store_perm hperm (kernelWrites_functional hS1 hS0) m).symm

/-- Witness for C10 on the tiny contiguous configuration `A0`. -/
theorem C10_disjoint_writes_order_independence_witness :
    (∀ s b h half lane s' b' h' half' lane',
      b < A0.BATCH_NUM → b' < A0.BATCH_NUM → h < 1 → h' < 1 →
      half < 2 → half' < 2 → lane < head_dim_mid A0 → lane' < head_dim_mid A0 →
      (s, b, h, half, lane) ≠ (s', b', h', half', lane') →
      write_offset A0 s b h half lane ≠ write_offset A0 s' b' h' half' lane') ∧
    ∀ ws : List (Nat × ℝ),
      (kernelWrites A0 1 1 ST0.inputMem ST0.cosMem ST0.sinMem).Perm ws →
      ∀ m : Nat → ℝ,
        ws.foldl store m =
          (kernelWrites A0 1 1 ST0.inputMem ST0.cosMem ST0.sinMem).foldl store m :=
  C10_disjoint_writes_order_independence A0 1 1 ST0.inputMem ST0.cosMem ST0.sinMem
    rfl rfl

/-! Claim theorems for the host entry point. -/

/-- Counterexample for C6: the entry point does not fail on an odd
`head_dim` (here 3) nor when the activation sequence length (here 2)
exceeds the rows of the freqs table (here 1): the call returns a result
instead of an error. -/
theorem C6_counterexample :
    (rope CTX0 Todd Fshort "sbhd" (fun x => x) (fun x => x) (fun _ => 0)).isOk = true := by
  rfl

/-- C6 amended: the entry point fails (with the unsupported-format
`ValueError`) exactly when the `tensor_format` tag is neither `"bshd"`
nor `"sbhd"`; an odd `head_dim` or a sequence length exceeding the rows
of the freqs table is not checked and raises nothing. -/
theorem C6_amended_format_check_only (ctx : Ctx) (t : PtTensor) (freqs : Freqs)
    (tensor_format : String) (cosf sinf : ℝ → ℝ) (uninit : Nat → ℝ) :
    (∃ e, rope ctx t freqs tensor_format cosf sinf uninit = .error e) ↔
      (tensor_format ≠ "bshd" ∧ tensor_format ≠ "sbhd") := by
  unfold rope
  by_cases h1 : tensor_format = "bshd"
  · simp [h1]
  · by_cases h2 : tensor_format = "sbhd" <;> simp [h1, h2]

/-- Counterexample for C7: a `rope` call mutates caller-visible state
beyond the output tensor: the `tensor_format` attribute of the
caller-provided ctx object is absent before the call and set after it. -/
theorem C7_counterexample :
    (rope CTX0 Todd Fshort "sbhd" (fun x => x) (fun x => x) (fun _ => 0)).map
        (fun r => r.ctx.tensor_format) = .ok (some "sbhd") ∧
    CTX0.tensor_format = none := by
  exact ⟨rfl, rfl⟩

/-- C7 amended: the kernel dispatch never mutates the activation buffer
or the cos/sin tables and writes each output location at most once,
locations it does not write keep the allocation-time contents of the
output buffer; but every successful `rope` call additionally sets the
`cos`, `sin`, `BLOCK_SIZE` and `tensor_format` attributes of the
caller-provided ctx object. -/
theorem C7_amended_frame
    (A : KernelArgs) (grid_seq head_num : Nat) (st : KernelState)
    (hS1 : A.in_batch_stride = head_num * A.head_dim)
    (hS0 : A.in_seq_len_stride = A.BATCH_NUM * A.in_batch_stride) :
    (rope_kernel_fw A grid_seq head_num st).inputMem = st.inputMem ∧
    (rope_kernel_fw A grid_seq head_num st).cosMem = st.cosMem ∧
    (rope_kernel_fw A grid_seq head_num st).sinMem = st.sinMem ∧
    (kernelWrites A grid_seq head_num st.inputMem st.cosMem st.sinMem).Pairwise
      (fun p q => p.1 ≠ q.1) ∧
    (∀ a, (∀ p ∈ kernelWrites A grid_seq head_num st.inputMem st.cosMem st.sinMem,
        p.1 ≠ a) →
      (rope_kernel_fw A grid_seq head_num st).outMem a = st.outMem a) ∧
    (∀ (ctx : Ctx) (t : PtTensor) (freqs : Freqs) (fmt : String)
        (cosf sinf : ℝ → ℝ) (uninit : Nat → ℝ) (r : RopeResult),
      rope ctx t freqs fmt cosf sinf uninit = .ok r →
      ∃ c sn bs, r.ctx = { cos := some c
                           sin := some sn
                           BLOCK_SIZE := some bs
                           tensor_format := some fmt }) := by
  refine ⟨foldl_storeOut_inputMem _ _, foldl_storeOut_cosMem _ _,
    foldl_storeOut_sinMem _ _, kernelWrites_pairwise_ne hS1 hS0, ?_, ?_⟩
  · intro a ha
    rw [rope_kernel_fw, foldl_storeOut_outMem]
    exact foldl_store_notMem _ _ _ ha
  · intro ctx t freqs fmt cosf sinf uninit r hr
    unfold rope at hr
    by_cases h1 : fmt = "bshd"
    · subst h1
      simp at hr
      subst hr
      exact ⟨_, _, _, rfl⟩
    · by_cases h2 : fmt = "sbhd"
      · subst h2
        simp [h1] at hr
        subst hr
        exact ⟨_, _, _, rfl⟩
      · simp [h1, h2] at hr

/-- Witness for the amended C7 on the tiny configuration `A0`. -/
theorem C7_amended_frame_witness :
    (rope_kernel_fw A0 1 1 ST0).inputMem = ST0.inputMem ∧
    (rope_kernel_fw A0 1 1 ST0).cosMem = ST0.cosMem ∧
    (rope_kernel_fw A0 1 1 ST0).sinMem = ST0.sinMem ∧
    (kernelWrites A0 1 1 ST0.inputMem ST0.cosMem ST0.sinMem).Pairwise
      (fun p q => p.1 ≠ q.1) ∧
    (∀ a, (∀ p ∈ kernelWrites A0 1 1 ST0.inputMem ST0.cosMem ST0.sinMem,
        p.1 ≠ a) →
      (rope_kernel_fw A0 1 1 ST0).outMem a = ST0.outMem a) ∧
    (∀ (ctx : Ctx) (t : PtTensor) (freqs : Freqs) (fmt : String)
        (cosf sinf : ℝ → ℝ) (uninit : Nat → ℝ) (r : RopeResult),
      rope ctx t freqs fmt cosf sinf uninit = .ok r →
      ∃ c sn bs, r.ctx = { cos := some c
                           sin := some sn
                           BLOCK_SIZE := some bs
                           tensor_format := some fmt }) :=
  C7_amended_frame A0 1 1 ST0 rfl rfl

/-- C9: rotating a tensor in the batch-major layout tag is
transpose-equivalent to rotating its axis-0/1 transpose in the
sequence-major tag: the `"bshd"` result is the `"sbhd"` result with axes
0 and 1 swapped. -/
theorem C9_layout_invariance (ctx : Ctx) (t : PtTensor) (freqs : Freqs)
    (cosf sinf : ℝ → ℝ) (uninit : Nat → ℝ) :
    (rope ctx (transpose01 t) freqs "bshd" cosf sinf uninit).map (fun r => r.output) =
      (rope ctx t freqs "sbhd" cosf sinf uninit).map (fun r => transpose01 r.output) := by
  have htt : transpose01 (transpose01 t) = t := by cases t; rfl
  unfold rope
  simp [htt, transpose01, Except.map]

/-! Claim theorems for the frequency-table builders. -/

/-- C2: the frequency builders produce, for position `m` and pair index
`k`, the angle `m * base^(-2k/dim)`; the polar table has the elementwise
cosine of these angles as real parts and the elementwise sine as
imaginary parts; in particular at `dim = 4`, `seq_len = 2`,
`base = 10000`, the position-0 row has cosine 1 and sine 0 at every pair
index, and the angle at position 1, pair index 0 is exactly 1 radian. -/
theorem C2_frequency_schedule (dim seq_len : Nat) (base : ℝ)
    (hdim : 0 < dim) (heven : dim % 2 = 0) (hseq : 0 < seq_len) :
    (∀ m k, m < seq_len → k < dim / 2 →
      m_theta dim base m k = (m : ℝ) * base ^ (-(2 * (k : ℝ)) / (dim : ℝ)) ∧
      ((precompute_freqs_cis dim seq_len base).val m k).re =
        Real.cos (m_theta dim base m k) ∧
      ((precompute_freqs_cis dim seq_len base).val m k).im =
        Real.sin (m_theta dim base m k)) ∧
    (∀ k, ((precompute_freqs_cis 4 2 10000).val 0 k).re = 1 ∧
      ((precompute_freqs_cis 4 2 10000).val 0 k).im = 0) ∧
    m_theta 4 10000 1 0 = 1 := by
  have hexp : ∀ (k d : Nat),
      (-(2 * ((k + 1 : ℝ) - 1))) / (d : ℝ) = -(2 * (k : ℝ)) / (d : ℝ) := by
    intro k d; ring_nf
  refine ⟨?_, ?_, ?_⟩
  · intro m k hm hk
    refine ⟨?_, ?_, ?_⟩
    · simp only [m_theta, compute_theta]
      rw [hexp]
    · simp [precompute_freqs_cis, polar]
    · simp [precompute_freqs_cis, polar]
  · intro k
    have h0 : m_theta 4 (10000 : ℝ) 0 k = 0 := by
      unfold m_theta; simp
    constructor <;>
      simp [precompute_freqs_cis, polar, h0, Real.cos_zero, Real.sin_zero]
  · simp only [m_theta, compute_theta]
    rw [hexp]
    norm_num

/-- Witness for C2 at `dim = 4`, `seq_len = 2`, `base = 10000`. -/
theorem C2_frequency_schedule_witness :
    (∀ m k, m < 2 → k < 4 / 2 →
      m_theta 4 10000 m k = (m : ℝ) * (10000 : ℝ) ^ (-(2 * (k : ℝ)) / ((4 : Nat) : ℝ)) ∧
      ((precompute_freqs_cis 4 2 10000).val m k).re =
        Real.cos (m_theta 4 10000 m k) ∧
      ((precompute_freqs_cis 4 2 10000).val m k).im =
        Real.sin (m_theta 4 10000 m k)) ∧
    (∀ k, ((precompute_freqs_cis 4 2 10000).val 0 k).re = 1 ∧
      ((precompute_freqs_cis 4 2 10000).val 0 k).im = 0) ∧
    m_theta 4 10000 1 0 = 1 :=
  C2_frequency_schedule 4 2 10000 (by decide) (by decide) (by decide)

/-- C5 (evidence of the code bug): on the odd dimension 3,
`precompute_theta_pos_frequencies` does fail (its assertion), but
`compute_theta` and `precompute_freqs_cis` only record the printed
diagnostic and still return a table computed from the odd dimension: the
entry `k = 0` of the theta table is `2 ^ 0 = 1` and the polar table entry
at position 1, pair index 0 has real part `cos 1`. -/
theorem C5_odd_dim_only_warns :
    precompute_theta_pos_frequencies 3 2 2 =
      .error "Dimension must be divisible by 2" ∧
    (compute_theta 3 2).warnings = ["嵌入维度 dim 必须为偶数"] ∧
    (compute_theta 3 2).val 0 = 1 ∧
    (precompute_freqs_cis 3 2 2).warnings = ["嵌入维度 dim 必须为偶数"] ∧
    ((precompute_freqs_cis 3 2 2).val 1 0).re = Real.cos 1 := by
  have hθ : (compute_theta 3 (2 : ℝ)).val 0 = 1 := by
    have h1 : (compute_theta 3 (2 : ℝ)).val 0 = (2 : ℝ) ^ (0 : ℝ) := by
      unfold compute_theta
      norm_num
    rw [h1, Real.rpow_zero]
  refine ⟨?_, rfl, hθ, rfl, ?_⟩
  · unfold precompute_theta_pos_frequencies
    rw [if_neg (by decide)]
  · simp only [precompute_freqs_cis, m_theta, polar]
    rw [hθ]
    norm_num

/-- C8: the two frequency helpers agree: for every positive even `dim`,
positive `seq_len` and positive `base`,
`precompute_theta_pos_frequencies` (0-based exponent via
`arange(0, dim, 2)`) succeeds and its polar table coincides entry for
entry with the table of `precompute_freqs_cis` (1-based exponent), every
entry being a unit-magnitude complex rotation; in the real-number model
the match is exact. -/
theorem C8_builders_agree (dim seq_len : Nat) (base : ℝ)
    (hdim : 0 < dim) (heven : dim % 2 = 0) (hseq : 0 < seq_len)
    (hbase : 0 < base) :
    ∃ tbl, precompute_theta_pos_frequencies dim seq_len base = .ok tbl ∧
      ∀ m k, m < seq_len → k < dim / 2 →
        tbl m k = (precompute_freqs_cis dim seq_len base).val m k ∧
        Complex.abs (tbl m k) = 1 := by
  have habs : ∀ θ : ℝ, Complex.abs (polar 1 θ) = 1 := by
    intro θ
    unfold polar
    rw [Complex.abs_apply, Complex.normSq_mk]
    have h1 : 1 * Real.cos θ * (1 * Real.cos θ) + 1 * Real.sin θ * (1 * Real.sin θ)
        = 1 := by
      have h := Real.sin_sq_add_cos_sq θ
      nlinarith [h]
    rw [h1, Real.sqrt_one]
  have hangle : ∀ k : Nat, (1 : ℝ) / base ^ (((2 * k : Nat) : ℝ) / (dim : ℝ)) =
      base ^ ((-(2 * ((k + 1 : ℝ) - 1))) / (dim : ℝ)) := by
    intro k
    rw [one_div, ← Real.rpow_neg hbase.le]
    congr 1
    push_cast
    ring
  refine ⟨fun m k =>
    polar 1 ((m : ℝ) * (1 / (base ^ (((2 * k : Nat) : ℝ) / (dim : ℝ))))), ?_, ?_⟩
  · unfold precompute_theta_pos_frequencies
    rw [if_pos heven]
  · intro m k hm hk
    constructor
    · simp only [precompute_freqs_cis, m_theta, compute_theta]
      rw [hangle]
    · exact habs _

/-- Witness for C8 at `dim = 4`, `seq_len = 2`, `base = 2`. -/
theorem C8_builders_agree_witness :
    ∃ tbl, precompute_theta_pos_frequencies 4 2 2 = .ok tbl ∧
      ∀ m k, m < 2 → k < 4 / 2 →
        tbl m k = (precompute_freqs_cis 4 2 2).val m k ∧
        Complex.abs (tbl m k) = 1 :=
  C8_builders_agree 4 2 2 (by decide) (by decide) (by decide) zero_lt_two

end Rope
